import Mathlib

/-!
Verification development for the mixture-model engine (GMM.py) of the
cluster-forecasting repository.

The Python source is shallowly embedded: tensors of reals become functions
out of `Fin`, `torch` matrices become `Matrix (Fin d) (Fin d) ℝ`, and the
closed-form log-density formulas of `torch.distributions` are written out
explicitly.  In-place parameter mutation (`constrain_parameters`) becomes a
pure state-to-state function.
-/

open Matrix

namespace GMM

/-- The closed enumeration `MixtureFamily` of covariance parameterization
strategies (GMM.py lines 69-74). -/
inductive MixtureFamily where
  | FULL
  | DIAGONAL
  | ISOTROPIC
  | SHARED_ISOTROPIC
  | CONSTANT
  deriving DecidableEq, Repr

/-- The string tag of each family (the `Enum` values in GMM.py). -/
def MixtureFamily.value : MixtureFamily → String
  | .FULL => "full"
  | .DIAGONAL => "diagonal"
  | .ISOTROPIC => "isotropic"
  | .SHARED_ISOTROPIC => "shared_isotropic"
  | .CONSTANT => "constant"

/-- Iteration order of the `MixtureFamily` enumeration. -/
def allFamilies : List MixtureFamily :=
  [.FULL, .DIAGONAL, .ISOTROPIC, .SHARED_ISOTROPIC, .CONSTANT]

/-- `FAMILY_NAMES = [family.value for family in MixtureFamily]` (GMM.py line 77). -/
def FAMILY_NAMES : List String := allFamilies.map MixtureFamily.value

/-- `get_mixture_family_from_str` (GMM.py lines 80-88): scan the enumeration in
order, return the first family whose tag equals the argument, otherwise raise
`ValueError` listing the valid names. -/
def get_mixture_family_from_str (family_name : String) : Except String MixtureFamily :=
  match allFamilies.find? (fun family => family.value == family_name) with
  | some family => Except.ok family
  | none =>
      Except.error ("Unknown mixture family `" ++ family_name ++
        "`. Please select from " ++ toString FAMILY_NAMES)

/-- `warp_probs` (GMM.py lines 51-66): with `alpha = log target_value / log (1/n)`
where `n` is the length of the vector, raise every entry to the power `alpha`
(real power; numpy floats are modelled as reals). -/
noncomputable def warp_probs (probs : List ℝ) (target_value : ℝ) : List ℝ :=
  let alpha : ℝ := Real.log target_value / Real.log (1 / (probs.length : ℝ))
  probs.map (fun p => p ^ alpha)

/-- `torch.distributions.utils.logits_to_probs` applied to the mixing logits:
the softmax transform (GMM.py lines 118-119). -/
noncomputable def logits_to_probs {K : ℕ} (logits : Fin K → ℝ) : Fin K → ℝ :=
  fun k => Real.exp (logits k) / ∑ j, Real.exp (logits j)

/-- Closed-form log-density of the multivariate normal with the given mean and
covariance matrix, as computed by `torch.distributions.MultivariateNormal`
when a covariance matrix is supplied:
`-1/2 * (d·log(2π) + log det Σ + (x-μ)ᵀ Σ⁻¹ (x-μ))`. -/
noncomputable def mvnLogProb (d : ℕ) (mu : Fin d → ℝ) (cov : Matrix (Fin d) (Fin d) ℝ)
    (x : Fin d → ℝ) : ℝ :=
  -(1 / 2) * ((d : ℝ) * Real.log (2 * Real.pi) + Real.log cov.det +
    Matrix.dotProduct (x - mu) (cov⁻¹.mulVec (x - mu)))

/-- Learnable state of `GmmFull` (GMM.py lines 138-198): mixing `logits`,
component `mus`, the per-component square matrix parameter `scale_tril`, and
the bias-free embedding weight.  `num_components`, `num_dims` and the feature
dimensionality are fixed at construction, hence type indices. -/
structure GmmFullState (K d F : ℕ) where
  logits : Fin K → ℝ
  mus : Fin K → Fin d → ℝ
  scale_tril : Fin K → Matrix (Fin d) (Fin d) ℝ
  embedWeight : Matrix (Fin d) (Fin F) ℝ
  init_radius : ℝ

/-- Mixture log-density used by `GmmFull.forward` (GMM.py lines 172-182).
The source constructs `MultivariateNormal(self.mus, self.scale_tril)`: the
second POSITIONAL argument of `torch.distributions.MultivariateNormal` is
`covariance_matrix`, so the stored `scale_tril` tensor itself is used as the
covariance matrix of each component. -/
noncomputable def GmmFullState.mixtureLogProb {K d F : ℕ} (m : GmmFullState K d F)
    (y : Fin d → ℝ) : ℝ :=
  Real.log (∑ k, logits_to_probs m.logits k * Real.exp (mvnLogProb d (m.mus k) (m.scale_tril k) y))

/-- The `nll_loss` returned by `GmmFull.forward` (GMM.py line 180): embed each
input with the bias-free linear map, take the mean mixture log-density over
the batch, and negate. -/
noncomputable def GmmFullState.forwardLoss {K d F : ℕ} (m : GmmFullState K d F)
    (batch : List (Fin F → ℝ)) : ℝ :=
  -((batch.map (fun x => m.mixtureLogProb (m.embedWeight.mulVec x))).sum / (batch.length : ℝ))

/-- `GmmFull.constrain_parameters` (GMM.py lines 184-191): for every component
factor, replace each diagonal entry by its absolute value and then clamp it
from below by `epsilon` (`abs_` then `clamp_min_`); off-diagonal entries are
untouched, as are all other parameters. -/
def GmmFullState.constrain_parameters {K d F : ℕ} (m : GmmFullState K d F)
    (epsilon : ℝ) : GmmFullState K d F :=
  ⟨m.logits, m.mus,
    fun k i j => if i = j then max |m.scale_tril k i j| epsilon else m.scale_tril k i j,
    m.embedWeight, m.init_radius⟩

/-- `GmmFull.get_covariance_matrix` (GMM.py lines 196-197):
`scale_tril @ scale_tril.mT` per component. -/
def GmmFullState.get_covariance_matrix {K d F : ℕ} (m : GmmFullState K d F) :
    Fin K → Matrix (Fin d) (Fin d) ℝ :=
  fun k => m.scale_tril k * (m.scale_tril k)ᵀ

/-- Learnable state of `GmmDiagonal` (GMM.py lines 200-253): mixing `logits`,
component `mus`, the per-component diagonal scale vector `sigmas_diag`, and
the bias-free embedding weight. -/
structure GmmDiagState (K d F : ℕ) where
  logits : Fin K → ℝ
  mus : Fin K → Fin d → ℝ
  sigmas_diag : Fin K → Fin d → ℝ
  embedWeight : Matrix (Fin d) (Fin F) ℝ
  init_radius : ℝ

/-- `GmmDiagonal.constrain_parameters` (GMM.py lines 240-247): replace every
entry of `sigmas_diag` by its absolute value and clamp it from below by
`epsilon`. -/
def GmmDiagState.constrain_parameters {K d F : ℕ} (m : GmmDiagState K d F)
    (epsilon : ℝ) : GmmDiagState K d F :=
  ⟨m.logits, m.mus,
    fun k i => max |m.sigmas_diag k i| epsilon,
    m.embedWeight, m.init_radius⟩

/-- `GmmDiagonal.get_covariance_matrix` (GMM.py lines 252-253):
`torch.diag_embed(self.sigmas_diag)` — the diagonal matrix whose diagonal is
the stored `sigmas_diag` vector itself (not its square). -/
def GmmDiagState.get_covariance_matrix {K d F : ℕ} (m : GmmDiagState K d F) :
    Fin K → Matrix (Fin d) (Fin d) ℝ :=
  fun k => Matrix.diagonal (m.sigmas_diag k)

/-- The state stored by `MixtureModel.__init__` (GMM.py lines 91-113):
`init_radius`, the optional caller-supplied `init_mus`, and zero logits. -/
structure MixtureBase (K d : ℕ) where
  init_radius : ℝ
  init_mus : Option (Fin K → Fin d → ℝ)
  logits : Fin K → ℝ

/-- `MixtureModel.__init__`: stores its arguments; `logits` start at zero. -/
def MixtureModel_init (K d : ℕ) (init_radius : ℝ)
    (init_mus : Option (Fin K → Fin d → ℝ)) : MixtureBase K d :=
  ⟨init_radius, init_mus, fun _ => 0⟩

/-- The component means produced by `GmmFull.__init__` / `GmmDiagonal.__init__`
(GMM.py lines 147-155 and 215-223).  Both call
`super().__init__(num_components, num_dims, init_radius)` WITHOUT forwarding
their `init_mus` argument, so the base class stores `init_mus = None`; the
local initializer then branches on `self.init_mus` (the stored value, not the
constructor argument).  `uniformDraws` stands for the entries produced by
`torch.rand(...).uniform_(-init_radius, init_radius)`. -/
def gmmInitMeans (K d : ℕ) (init_radius : ℝ) (init_mus : Option (Fin K → Fin d → ℝ))
    (uniformDraws : Fin K → Fin d → ℝ) : Fin K → Fin d → ℝ :=
  let base := MixtureModel_init K d init_radius none
  match base.init_mus with
  | some v => v
  | none => uniformDraws

/-- The argument values bound by the concrete constructors
`GmmFull.__init__` / `GmmDiagonal.__init__`, whose Python signature is
`(num_components, num_dims, num_feat, init_radius=1.0, init_mus=None)`. -/
structure CtorArgs where
  num_components : ℕ
  num_dims : ℕ
  num_feat : ℝ
  init_radius : ℝ
  init_mus : Option (List (List ℝ))

/-- Outcome of the factory `get_model`. -/
inductive ModelResult where
  | full (args : CtorArgs)
  | diagonal (args : CtorArgs)
  | notImplemented (msg : String)

/-- `get_model` (GMM.py lines 256-270): dispatches on the family.  The concrete
constructors are called as `GmmFull(num_components, num_dims, radius)`, so the
third POSITIONAL argument `radius` binds to the `num_feat` slot and
`init_radius` keeps its default `1.0`. -/
def get_model (mixture_family : MixtureFamily) (num_components num_dims : ℕ)
    (radius : ℝ) : ModelResult :=
  if mixture_family = MixtureFamily.FULL then
    ModelResult.full ⟨num_components, num_dims, radius, 1, none⟩
  else if mixture_family = MixtureFamily.DIAGONAL then
    ModelResult.diagonal ⟨num_components, num_dims, radius, 1, none⟩
  else
    ModelResult.notImplemented
      ("Mixture family " ++ mixture_family.value ++ " not implemented yet")

/-! ## Theorems -/

/-- C4: the factory `get_model` does dispatch `FULL ↦ GmmFull`,
`DIAGONAL ↦ GmmDiagonal` and raises a not-implemented error naming the family
otherwise, but the caller value `radius` is bound to the constructor slot `num_feat`
slot while `init_radius` keeps its default `1.0`: with caller radius `5`, the
constructed model has `init_radius` equal to `1 ≠ 5`. -/
theorem get_model_radius_into_num_feat :
    get_model MixtureFamily.FULL 2 3 5 = ModelResult.full ⟨2, 3, 5, 1, none⟩ ∧
    get_model MixtureFamily.DIAGONAL 2 3 5 = ModelResult.diagonal ⟨2, 3, 5, 1, none⟩ ∧
    ((1 : ℝ) ≠ 5) ∧
    get_model MixtureFamily.ISOTROPIC 2 3 5
      = ModelResult.notImplemented "Mixture family isotropic not implemented yet" ∧
    get_model MixtureFamily.SHARED_ISOTROPIC 2 3 5
      = ModelResult.notImplemented "Mixture family shared_isotropic not implemented yet" ∧
    get_model MixtureFamily.CONSTANT 2 3 5
      = ModelResult.notImplemented "Mixture family constant not implemented yet" :=
  ⟨rfl, rfl, by norm_num, rfl, rfl, rfl⟩

/-- C5: caller-supplied initial means are ignored: the concrete constructors
call the base initializer without forwarding `init_mus`, so the stored value
is always `none` and the means are always the uniform draws.  Here the caller
supplies constant means `5`, the draws are all `0`, and the constructed means
are the draws, which differ from the supplied values. -/
theorem init_mus_ignored :
    gmmInitMeans 1 1 1 (some (fun _ _ => 5)) (fun _ _ => 0) = (fun _ _ => 0) ∧
    (fun (_ : Fin 1) (_ : Fin 1) => (0 : ℝ)) ≠ (fun _ _ => 5) := by
  refine ⟨rfl, fun h => ?_⟩
  have h0 := congrFun (congrFun h 0) 0
  norm_num at h0

/-- Concrete `GmmDiagonal` state with a single scale entry `2`, used to
exhibit the mismatch of C2. -/
def diagEx2 : GmmDiagState 1 1 1 := ⟨fun _ => 0, fun _ _ => 0, fun _ _ => 2, fun _ _ => 1, 1⟩

/-- C2: `GmmDiagonal.get_covariance_matrix` returns `diag(sigmas_diag)`, not
`diag(sigmas_diag²)`: with scale entry `2` the returned matrix has entry `2`
while the square is `4`, so the result differs from the claimed matrix. -/
theorem diag_covariance_not_squared :
    (diagEx2.get_covariance_matrix 0) 0 0 = 2 ∧
    (diagEx2.sigmas_diag 0 0) ^ 2 = 4 ∧
    diagEx2.get_covariance_matrix 0 ≠ Matrix.diagonal (fun i => (diagEx2.sigmas_diag 0 i) ^ 2) := by
  refine ⟨rfl, by norm_num [diagEx2], fun h => ?_⟩
  have h0 := congrFun (congrFun h 0) 0
  simp [diagEx2, GmmDiagState.get_covariance_matrix, Matrix.diagonal_apply_eq] at h0
  norm_num at h0

/-- C10: on a vector of length one, `warp_probs` computes its exponent as
`log target / log (1/1)` and `log (1/1) = 0`, so the exponent divides by
zero; with real-division conventions the uniform length-one vector `[1]` is
mapped to `[1]`, which differs from the target `1/2` — the warp property is
only meaningful for length `≥ 2`. -/
theorem warp_probs_length_one_degenerate :
    Real.log (1 / (([(1 : ℝ)].length : ℝ))) = 0 ∧
    warp_probs [(1 : ℝ)] (1 / 2) = [(1 : ℝ)] ∧
    [(1 : ℝ)] ≠ [(1 : ℝ) / 2] := by
  refine ⟨by norm_num, ?_, fun h => ?_⟩
  · simp [warp_probs, Real.one_rpow]
  · have h0 := List.head_eq_of_cons_eq h
    norm_num at h0

/-- C9: `constrain_parameters` changes only the diagonal of each per-component
`scale_tril` (GmmFull) resp. the `sigmas_diag` entries (GmmDiagonal); the
means, logits, embedding weight, initialization radius, and every off-diagonal
scale entry are exactly unchanged. -/
theorem constrain_parameters_frame {K d F : ℕ} (epsilon : ℝ)
    (mf : GmmFullState K d F) (md : GmmDiagState K d F) :
    ((mf.constrain_parameters epsilon).mus = mf.mus ∧
     (mf.constrain_parameters epsilon).logits = mf.logits ∧
     (mf.constrain_parameters epsilon).embedWeight = mf.embedWeight ∧
     (mf.constrain_parameters epsilon).init_radius = mf.init_radius ∧
     ∀ k, ∀ i j : Fin d, i ≠ j →
       (mf.constrain_parameters epsilon).scale_tril k i j = mf.scale_tril k i j) ∧
    ((md.constrain_parameters epsilon).mus = md.mus ∧
     (md.constrain_parameters epsilon).logits = md.logits ∧
     (md.constrain_parameters epsilon).embedWeight = md.embedWeight ∧
     (md.constrain_parameters epsilon).init_radius = md.init_radius) := by
  refine ⟨⟨rfl, rfl, rfl, rfl, fun k i j hij => ?_⟩, rfl, rfl, rfl, rfl⟩
  simp [GmmFullState.constrain_parameters, hij]

/-- Concrete two-dimensional `GmmFull` state for the C9 witness. -/
def frameFullEx : GmmFullState 1 2 1 :=
  ⟨fun _ => 0, fun _ _ => 3, fun _ _ _ => -7, fun _ _ => 1, 2⟩

/-- Concrete `GmmDiagonal` state for the C9 witness. -/
def frameDiagEx : GmmDiagState 1 2 1 :=
  ⟨fun _ => 0, fun _ _ => 3, fun _ _ => -7, fun _ _ => 1, 2⟩

/-- Witness for C9 at a concrete state and `epsilon = 1/2`, with the
off-diagonal frame condition discharged at the concrete indices `(0, 1)`. -/
theorem constrain_parameters_frame_witness :
    (frameFullEx.constrain_parameters (1 / 2)).mus = frameFullEx.mus ∧
    (frameDiagEx.constrain_parameters (1 / 2)).logits = frameDiagEx.logits ∧
    ((0 : Fin 2) ≠ 1) ∧
    (frameFullEx.constrain_parameters (1 / 2)).scale_tril 0 0 1
      = frameFullEx.scale_tril 0 0 1 :=
  ⟨(constrain_parameters_frame (1 / 2) frameFullEx frameDiagEx).1.1,
   (constrain_parameters_frame (1 / 2) frameFullEx frameDiagEx).2.2.1,
   by decide,
   (constrain_parameters_frame (1 / 2) frameFullEx frameDiagEx).1.2.2.2.2 0 0 1 (by decide)⟩

/-- C7: `constrain_parameters` is idempotent for both model families: an
entry already of the form `max |x| ε` is nonnegative, so a second absolute
value and clamp leave it unchanged. -/
theorem constrain_parameters_idempotent {K d F : ℕ} (epsilon : ℝ) (heps : 0 < epsilon)
    (mf : GmmFullState K d F) (md : GmmDiagState K d F) :
    (mf.constrain_parameters epsilon).constrain_parameters epsilon
      = mf.constrain_parameters epsilon ∧
    (md.constrain_parameters epsilon).constrain_parameters epsilon
      = md.constrain_parameters epsilon := by
  constructor
  · show GmmFullState.mk _ _ _ _ _ = GmmFullState.mk _ _ _ _ _
    congr 1
    funext k i j
    by_cases hij : i = j
    · simp only [GmmFullState.constrain_parameters, hij, if_true]
      rw [abs_of_nonneg ((abs_nonneg _).trans (le_max_left _ _)), max_assoc, max_self]
    · simp [GmmFullState.constrain_parameters, hij]
  · show GmmDiagState.mk _ _ _ _ _ = GmmDiagState.mk _ _ _ _ _
    congr 1
    funext k i
    simp only [GmmDiagState.constrain_parameters]
    rw [abs_of_nonneg ((abs_nonneg _).trans (le_max_left _ _)), max_assoc, max_self]

/-- Concrete `GmmFull` state for the C7 witness. -/
def idemFullEx : GmmFullState 1 1 1 :=
  ⟨fun _ => 0, fun _ _ => 0, fun _ _ _ => -3, fun _ _ => 1, 1⟩

/-- Concrete `GmmDiagonal` state for the C7 witness. -/
def idemDiagEx : GmmDiagState 1 1 1 :=
  ⟨fun _ => 0, fun _ _ => 0, fun _ _ => -3, fun _ _ => 1, 1⟩

/-- Witness for C7 at concrete states and `epsilon = 1/2 > 0`. -/
theorem constrain_parameters_idempotent_witness :
    (0 : ℝ) < 1 / 2 ∧
    (idemFullEx.constrain_parameters (1 / 2)).constrain_parameters (1 / 2)
      = idemFullEx.constrain_parameters (1 / 2) ∧
    (idemDiagEx.constrain_parameters (1 / 2)).constrain_parameters (1 / 2)
      = idemDiagEx.constrain_parameters (1 / 2) :=
  ⟨by norm_num,
   (constrain_parameters_idempotent (1 / 2) (by norm_num) idemFullEx idemDiagEx).1,
   (constrain_parameters_idempotent (1 / 2) (by norm_num) idemFullEx idemDiagEx).2⟩

/-- Helper: when `s` is none of the five tags, the scan over the enumeration
finds nothing. -/
theorem find_family_eq_none (s : String) (hmem : s ∉ FAMILY_NAMES) :
    allFamilies.find? (fun family => family.value == s) = none := by
  rw [List.find?_eq_none]
  intro g hg
  simp only [beq_iff_eq]
  intro hgs
  apply hmem
  rw [← hgs]
  fin_cases hg <;> decide

/-- C6: `get_mixture_family_from_str` succeeds exactly on the five declared
tag strings (case-sensitive), and on any other string returns the
unknown-family error built from the full list of valid tags. -/
theorem lookup_family_complete (s : String) :
    ((∃ f, get_mixture_family_from_str s = Except.ok f) ↔ s ∈ FAMILY_NAMES) ∧
    (s ∉ FAMILY_NAMES →
      get_mixture_family_from_str s = Except.error ("Unknown mixture family `" ++ s ++
        "`. Please select from " ++ toString FAMILY_NAMES)) := by
  have hnames : FAMILY_NAMES = ["full", "diagonal", "isotropic", "shared_isotropic", "constant"] := rfl
  constructor
  · constructor
    · rintro ⟨f, hf⟩
      by_contra hmem
      rw [get_mixture_family_from_str, find_family_eq_none s hmem] at hf
      exact Except.noConfusion hf
    · intro hmem
      rw [hnames] at hmem
      simp only [List.mem_cons, List.not_mem_nil, or_false] at hmem
      rcases hmem with h | h | h | h | h <;> subst h
      · exact ⟨MixtureFamily.FULL, rfl⟩
      · exact ⟨MixtureFamily.DIAGONAL, rfl⟩
      · exact ⟨MixtureFamily.ISOTROPIC, rfl⟩
      · exact ⟨MixtureFamily.SHARED_ISOTROPIC, rfl⟩
      · exact ⟨MixtureFamily.CONSTANT, rfl⟩
  · intro hmem
    rw [get_mixture_family_from_str, find_family_eq_none s hmem]

/-- Witness for C6: the case variant `"FULL"` is rejected with the listing
error, while the exact tag `"full"` is accepted. -/
theorem lookup_family_complete_witness :
    ("FULL" ∉ FAMILY_NAMES) ∧
    get_mixture_family_from_str "FULL" = Except.error ("Unknown mixture family `" ++ "FULL" ++
      "`. Please select from " ++ toString FAMILY_NAMES) ∧
    (∃ f, get_mixture_family_from_str "full" = Except.ok f) :=
  ⟨by decide, (lookup_family_complete "FULL").2 (by decide),
   (lookup_family_complete "full").1.mpr (by decide)⟩

/-- C8: applied to the uniform vector of length `n ≥ 2`, with target in
`(0, 1)`, `warp_probs` returns the constant vector of the target value:
`(1/n) ^ (log t / log (1/n)) = t`. -/
theorem warp_probs_uniform_fixed_point (n : ℕ) (hn : 2 ≤ n) (t : ℝ)
    (ht0 : 0 < t) (ht1 : t < 1) :
    warp_probs (List.replicate n ((1 : ℝ) / n)) t = List.replicate n t := by
  have hn1 : (1 : ℝ) < (n : ℝ) := by
    have h2 : (1 : ℕ) < n := by omega
    exact_mod_cast h2
  have hx : (0 : ℝ) < 1 / n := by positivity
  have hlog : Real.log (1 / (n : ℝ)) ≠ 0 := by
    rw [one_div, Real.log_inv]
    exact neg_ne_zero.mpr (ne_of_gt (Real.log_pos hn1))
  simp only [warp_probs, List.length_replicate, List.map_replicate]
  congr 1
  rw [Real.rpow_def_of_pos hx, mul_comm, div_mul_cancel₀ _ hlog, Real.exp_log ht0]

/-- Witness for C8 at `n = 4`, `t = 3/4`. -/
theorem warp_probs_uniform_fixed_point_witness :
    2 ≤ 4 ∧ (0 : ℝ) < 3 / 4 ∧ (3 : ℝ) / 4 < 1 ∧
    warp_probs (List.replicate 4 ((1 : ℝ) / ((4 : ℕ) : ℝ))) (3 / 4)
      = List.replicate 4 ((3 : ℝ) / 4) :=
  ⟨by norm_num, by norm_num, by norm_num,
   warp_probs_uniform_fixed_point 4 (by norm_num) (3 / 4) (by norm_num) (by norm_num)⟩

/-- Two-dimensional `GmmFull` state whose scale parameter is the all-ones
matrix (no longer lower-triangular, as happens under dense gradient updates
and already at initialization, which stores `L·Lᵗ + I`). -/
def fullEx3 : GmmFullState 1 2 1 := ⟨fun _ => 0, fun _ _ => 0, fun _ _ _ => 1, fun _ _ => 1, 1⟩

/-- C3 counterexample: with `epsilon = 1/2 > 0` and the all-ones scale
parameter, `constrain_parameters` leaves the matrix unchanged (its diagonal
is already `1 ≥ 1/2`) and the materialized covariance has determinant `0`,
which is not bounded below by any positive value. -/
theorem constrain_covariance_det_zero :
    (0 : ℝ) < 1 / 2 ∧
    ((fullEx3.constrain_parameters (1 / 2)).get_covariance_matrix 0).det = 0 := by
  refine ⟨by norm_num, ?_⟩
  have hM : (fullEx3.constrain_parameters (1 / 2)).scale_tril 0 = fun _ _ => (1 : ℝ) := by
    funext i j
    by_cases hij : i = j
    · simp only [fullEx3, GmmFullState.constrain_parameters, hij, if_true]
      rw [abs_one]
      exact max_eq_left (by norm_num)
    · simp [fullEx3, GmmFullState.constrain_parameters, hij]
  simp only [GmmFullState.get_covariance_matrix, hM]
  rw [Matrix.det_fin_two]
  simp only [Matrix.mul_apply, Matrix.transpose_apply, Fin.sum_univ_two]
  norm_num

/-- C3 (amended): for every state and every `epsilon > 0`, immediately after
`constrain_parameters epsilon`: every diagonal entry of every component
scale factor (GmmFull) and every `sigmas_diag` entry (GmmDiagonal) is at
least `epsilon`, and `get_covariance_matrix` returns, for every component,
a symmetric positive-semidefinite matrix; the determinant is at least
`epsilon ^ (2·d)` for GmmFull provided the stored component factor is
lower-triangular, and at least `epsilon ^ d` for GmmDiagonal
unconditionally. -/
theorem constrain_parameters_validity {K d F : ℕ} (epsilon : ℝ) (heps : 0 < epsilon)
    (mf : GmmFullState K d F) (md : GmmDiagState K d F) :
    (∀ k (i : Fin d), epsilon ≤ (mf.constrain_parameters epsilon).scale_tril k i i) ∧
    (∀ k, ((mf.constrain_parameters epsilon).get_covariance_matrix k).IsSymm) ∧
    (∀ k, ((mf.constrain_parameters epsilon).get_covariance_matrix k).PosSemidef) ∧
    (∀ k, (∀ i j : Fin d, i < j → mf.scale_tril k i j = 0) →
      epsilon ^ (2 * d) ≤ ((mf.constrain_parameters epsilon).get_covariance_matrix k).det) ∧
    (∀ k i, epsilon ≤ (md.constrain_parameters epsilon).sigmas_diag k i) ∧
    (∀ k, ((md.constrain_parameters epsilon).get_covariance_matrix k).IsSymm) ∧
    (∀ k, ((md.constrain_parameters epsilon).get_covariance_matrix k).PosSemidef) ∧
    (∀ k, epsilon ^ d ≤ ((md.constrain_parameters epsilon).get_covariance_matrix k).det) := by
  have hdiagF : ∀ k (i : Fin d),
      (mf.constrain_parameters epsilon).scale_tril k i i = max |mf.scale_tril k i i| epsilon := by
    intro k i
    simp [GmmFullState.constrain_parameters]
  have hoffF : ∀ k (i j : Fin d), i ≠ j →
      (mf.constrain_parameters epsilon).scale_tril k i j = mf.scale_tril k i j := by
    intro k i j hij
    simp [GmmFullState.constrain_parameters, hij]
  have hdiagD : ∀ k (i : Fin d),
      (md.constrain_parameters epsilon).sigmas_diag k i = max |md.sigmas_diag k i| epsilon := by
    intro k i
    simp [GmmDiagState.constrain_parameters]
  refine ⟨?_, ?_, ?_, ?_, ?_, ?_, ?_, ?_⟩
  · intro k i
    rw [hdiagF]
    exact le_max_right _ _
  · intro k
    simp only [GmmFullState.get_covariance_matrix, Matrix.IsSymm, Matrix.transpose_mul,
      Matrix.transpose_transpose]
  · intro k
    simp only [GmmFullState.get_covariance_matrix]
    rw [← Matrix.conjTranspose_eq_transpose_of_trivial]
    exact Matrix.posSemidef_self_mul_conjTranspose _
  · intro k htri
    have htriA : ((mf.constrain_parameters epsilon).scale_tril k).BlockTriangular OrderDual.toDual := by
      intro i j hij
      have hij2 : i < j := hij
      rw [hoffF k i j (ne_of_lt hij2)]
      exact htri i j hij2
    have hdetA : ((mf.constrain_parameters epsilon).scale_tril k).det
        = ∏ i, (mf.constrain_parameters epsilon).scale_tril k i i :=
      Matrix.det_of_lowerTriangular _ htriA
    have hprod : epsilon ^ d ≤ ∏ i, (mf.constrain_parameters epsilon).scale_tril k i i := by
      calc epsilon ^ d = ∏ _i : Fin d, epsilon := by
              rw [Finset.prod_const, Finset.card_univ, Fintype.card_fin]
        _ ≤ ∏ i, (mf.constrain_parameters epsilon).scale_tril k i i :=
              Finset.prod_le_prod (fun i _ => heps.le)
                (fun i _ => by rw [hdiagF]; exact le_max_right _ _)
    have hdetle : epsilon ^ d ≤ ((mf.constrain_parameters epsilon).scale_tril k).det := by
      rw [hdetA]; exact hprod
    have hdet0 : (0 : ℝ) ≤ ((mf.constrain_parameters epsilon).scale_tril k).det :=
      le_trans (pow_nonneg heps.le d) hdetle
    simp only [GmmFullState.get_covariance_matrix]
    rw [Matrix.det_mul, Matrix.det_transpose]
    calc epsilon ^ (2 * d) = epsilon ^ d * epsilon ^ d := by rw [two_mul, pow_add]
      _ ≤ _ := mul_le_mul hdetle hdetle (pow_nonneg heps.le d) hdet0
  · intro k i
    rw [hdiagD]
    exact le_max_right _ _
  · intro k
    exact Matrix.isSymm_diagonal _
  · intro k
    exact Matrix.posSemidef_diagonal_iff.mpr
      (fun i => by rw [hdiagD]; exact le_trans heps.le (le_max_right _ _))
  · intro k
    simp only [GmmDiagState.get_covariance_matrix]
    rw [Matrix.det_diagonal]
    calc epsilon ^ d = ∏ _i : Fin d, epsilon := by
            rw [Finset.prod_const, Finset.card_univ, Fintype.card_fin]
      _ ≤ ∏ i, (md.constrain_parameters epsilon).sigmas_diag k i :=
            Finset.prod_le_prod (fun i _ => heps.le)
              (fun i _ => by rw [hdiagD]; exact le_max_right _ _)

/-- Concrete `GmmFull` state for the C3 witness (its one-by-one scale
parameter is trivially lower-triangular). -/
def validFullEx : GmmFullState 1 1 1 :=
  ⟨fun _ => 0, fun _ _ => 0, fun _ _ _ => -3, fun _ _ => 1, 1⟩

/-- Concrete `GmmDiagonal` state for the C3 witness. -/
def validDiagEx : GmmDiagState 1 1 1 :=
  ⟨fun _ => 0, fun _ _ => 0, fun _ _ => -3, fun _ _ => 1, 1⟩

/-- Witness for the amended theorem of C3 at concrete states and
`epsilon = 1/2 > 0`, with the lower-triangularity side condition discharged. -/
theorem constrain_parameters_validity_witness :
    (0 : ℝ) < 1 / 2 ∧
    (1 / 2 : ℝ) ≤ (validFullEx.constrain_parameters (1 / 2)).scale_tril 0 0 0 ∧
    ((validFullEx.constrain_parameters (1 / 2)).get_covariance_matrix 0).PosSemidef ∧
    (1 / 2 : ℝ) ^ (2 * 1) ≤ ((validFullEx.constrain_parameters (1 / 2)).get_covariance_matrix 0).det ∧
    ((validDiagEx.constrain_parameters (1 / 2)).get_covariance_matrix 0).PosSemidef ∧
    (1 / 2 : ℝ) ^ 1 ≤ ((validDiagEx.constrain_parameters (1 / 2)).get_covariance_matrix 0).det :=
  ⟨by norm_num,
   (constrain_parameters_validity (1 / 2) (by norm_num) validFullEx validDiagEx).1 0 0,
   (constrain_parameters_validity (1 / 2) (by norm_num) validFullEx validDiagEx).2.2.1 0,
   (constrain_parameters_validity (1 / 2) (by norm_num) validFullEx validDiagEx).2.2.2.1 0
     (fun i j h => absurd (Subsingleton.elim i j ▸ h) (lt_irrefl j)),
   (constrain_parameters_validity (1 / 2) (by norm_num) validFullEx validDiagEx).2.2.2.2.2.2.1 0,
   (constrain_parameters_validity (1 / 2) (by norm_num) validFullEx validDiagEx).2.2.2.2.2.2.2 0⟩

/-- One-component, one-dimensional `GmmFull` state with identity embedding,
zero logits, zero mean and scale parameter entry `2`, used to exhibit C1. -/
def fullEx1 : GmmFullState 1 1 1 := ⟨fun _ => 0, fun _ _ => 0, fun _ _ _ => 2, fun _ _ => 1, 1⟩

/-- C1: the loss computed by `GmmFull.forward` uses the stored `scale_tril`
tensor itself as the covariance of each component (it is passed to
`MultivariateNormal` positionally, binding `covariance_matrix`), not the
spec parameterization `scale_tril · scale_trilᵗ`: on `fullEx1` at the point
`0` the forward loss is `½(log 2π + log 2)`, while the closed-form
single-Gaussian negative log density under covariance
`scale_tril · scale_trilᵗ = 4` is `½(log 2π + log 4)`, and the two differ. -/
theorem gmmFull_forward_covariance_mismatch :
    fullEx1.forwardLoss [fun _ => 0] = (1 / 2) * (Real.log (2 * Real.pi) + Real.log 2) ∧
    -(mvnLogProb 1 (fullEx1.mus 0) (fullEx1.scale_tril 0 * (fullEx1.scale_tril 0)ᵀ) (fun _ => 0))
      = (1 / 2) * (Real.log (2 * Real.pi) + Real.log 4) ∧
    fullEx1.forwardLoss [fun _ => 0]
      ≠ -(mvnLogProb 1 (fullEx1.mus 0) (fullEx1.scale_tril 0 * (fullEx1.scale_tril 0)ᵀ)
          (fun _ => 0)) := by
  have hsub : ((fun (_ : Fin 1) => (0 : ℝ)) - fullEx1.mus 0) = 0 := by
    funext i
    simp [fullEx1]
  have hquad : ∀ cov : Matrix (Fin 1) (Fin 1) ℝ,
      Matrix.dotProduct ((fun (_ : Fin 1) => (0 : ℝ)) - fullEx1.mus 0)
        (cov⁻¹.mulVec ((fun (_ : Fin 1) => (0 : ℝ)) - fullEx1.mus 0)) = 0 := by
    intro cov
    rw [hsub, Matrix.mulVec_zero, Matrix.dotProduct_zero]
  have hmvn1 : mvnLogProb 1 (fullEx1.mus 0) (fullEx1.scale_tril 0) (fun _ => 0)
      = -(1 / 2) * (Real.log (2 * Real.pi) + Real.log 2) := by
    unfold mvnLogProb
    rw [hquad]
    have hdet : (fullEx1.scale_tril 0).det = 2 := by
      rw [Matrix.det_fin_one]
      rfl
    rw [hdet, Nat.cast_one, one_mul, add_zero]
  have hmvn2 : mvnLogProb 1 (fullEx1.mus 0) (fullEx1.scale_tril 0 * (fullEx1.scale_tril 0)ᵀ)
      (fun _ => 0) = -(1 / 2) * (Real.log (2 * Real.pi) + Real.log 4) := by
    unfold mvnLogProb
    rw [hquad]
    have hdet : (fullEx1.scale_tril 0 * (fullEx1.scale_tril 0)ᵀ).det = 4 := by
      rw [Matrix.det_fin_one, Matrix.mul_apply, Fin.sum_univ_one]
      norm_num [fullEx1, Matrix.transpose_apply]
    rw [hdet, Nat.cast_one, one_mul, add_zero]
  have hy : fullEx1.embedWeight.mulVec (fun _ => 0) = (fun _ => 0) := by
    funext i
    simp [Matrix.mulVec, Matrix.dotProduct, fullEx1]
  have hltp : logits_to_probs fullEx1.logits 0 = 1 := by
    simp [logits_to_probs, fullEx1, Fin.sum_univ_one]
  have hmix : fullEx1.mixtureLogProb (fun _ => 0)
      = mvnLogProb 1 (fullEx1.mus 0) (fullEx1.scale_tril 0) (fun _ => 0) := by
    unfold GmmFullState.mixtureLogProb
    rw [Fin.sum_univ_one, hltp, one_mul, Real.log_exp]
  have hloss : fullEx1.forwardLoss [fun _ => 0]
      = (1 / 2) * (Real.log (2 * Real.pi) + Real.log 2) := by
    unfold GmmFullState.forwardLoss
    simp only [List.map_cons, List.map_nil, List.sum_cons, List.sum_nil, List.length_cons,
      List.length_nil, hy, hmix, hmvn1]
    push_cast
    ring
  refine ⟨hloss, by rw [hmvn2]; ring, ?_⟩
  rw [hloss, hmvn2]
  intro h
  have h2 : Real.log (2 * Real.pi) + Real.log 2 = Real.log (2 * Real.pi) + Real.log 4 := by
    have hhalf : ((1 : ℝ) / 2) ≠ 0 := by norm_num
    field_simp at h
    linarith
  have hlt : Real.log 2 < Real.log 4 := Real.log_lt_log (by norm_num) (by norm_num)
  linarith

end GMM
